import Mathlib

/-!
# Verification of the biruda dependency-closure resolver

A shallow embedding of the core resolution logic of the biruda
bundler-packaging tool, together with proofs of the behavioural claims
about it.

Embedding conventions:

* Filesystem contents, the host `require.resolve` machinery, `micromatch`,
  and `glob` are external collaborators; they are modelled as explicit
  environment records of pure functions, and the repository's own logic is
  translated on top of them.
* Asynchronous functions are modelled as pure state-passing functions;
  `await`ed sequential loops become folds/structural recursion.
* Thrown exceptions become `Except`-style error results; side-effecting
  callbacks (`includeCallback`, `logger.warn`) become an append-only event
  list inside the traversal state.
* Directories for the upward workspace walk are modelled as lists of path
  segments, with `path.dirname` dropping the last segment and the
  filesystem root being the empty list (where `dirname` is the identity).
-/

namespace Biruda

/-! ## String primitives

Computable models of the JavaScript string operations the sources use,
defined over character lists so that concrete instances reduce by
`decide`. -/

/-- `s.startsWith(pre)`. -/
def strStartsWith (s pre : String) : Bool :=
  s.toList.take pre.toList.length == pre.toList

/-- `s.endsWith(suff)`. -/
def pathEndsWith (s suff : String) : Bool :=
  suff.toList.isSuffixOf s.toList

/-- `name.split('/').at(-1)`, the last `/`-separated segment (empty when
the name ends in `/`). -/
def lastSegment (name : String) : String :=
  String.mk ((name.toList.reverse.takeWhile (fun c => c ≠ '/')).reverse)

/-- `path.includes('*')`. -/
def looksGlobbish (path : String) : Bool :=
  path.toList.contains '*'

/-! ## Manifest Reader (`src/lib/deps.ts`)

`loadPackageJsonInner` reads `<dir>/package.json` (or the file itself when
the argument already ends in `package.json`) and returns a
`[manifest, fileUrl]` pair, or `[null, null]` when the file is missing and
`throwOnMissing` is unset.  `loadPackageJson = pMemoize(loadPackageJsonInner,
{ cacheKey: ([fdirOrFile]) => fdirOrFile })` caches successful results by
the first argument only.  The filesystem is modelled as a partial map from
file paths to raw document contents. -/

structure FsEnv where
  contents : String → Option String

/-- The `package.json` file path computed by `loadPackageJsonInner`:
`dirOrFileAsUrl.pathname.endsWith('package.json') ? dirOrFileAsUrl :
new URL('./package.json', dirOrFileAsUrl + '/')`. -/
def packageJsonPathOf (dirOrFile : String) : String :=
  if pathEndsWith dirOrFile "package.json" then dirOrFile
  else dirOrFile ++ "/package.json"

/-- Result of one manifest load: the `[PackageJson | null, URL | null]`
tuple returned by `loadPackageJsonInner` (document contents kept
abstract as the raw string). -/
abbrev ManifestLoad := Option String × Option String

/-- `loadPackageJsonInner(dirOrFile, throwOnMissing)`: checks existence
(`access`), then reads and parses when the file must or does exist.  A
`readFile` on a missing path rejects with an ENOENT-style error, which is
the "manifest not found" condition of the throwing variant. -/
def loadPackageJsonInner (fs : FsEnv) (dirOrFile : String)
    (throwOnMissing : Bool) : Except String ManifestLoad :=
  let file := packageJsonPathOf dirOrFile
  let ex := (fs.contents file).isSome
  if throwOnMissing || ex then
    match fs.contents file with
    | some doc => .ok (some doc, some file)
    | none => .error ("ENOENT: no such file or directory " ++ file)
  else
    .ok (none, none)

/-- The memoization cache of `pMemoize`, keyed by the exact first argument
(`cacheKey: ([fdirOrFile]) => fdirOrFile`); the `throwOnMissing` flag is
not part of the key. -/
abbrev ManifestCache := List (String × ManifestLoad)

/-- `loadPackageJson(dirOrFile, throwOnMissing)` as a state-passing
function over the memoization cache.  The returned `Nat` counts the
invocations of the underlying `loadPackageJsonInner` (i.e. filesystem
touches) performed by this call: `0` on a cache hit, `1` on a miss.
`p-memoize` does not keep rejected promises in the cache, so only
successful results are stored. -/
def loadPackageJson (fs : FsEnv) (cache : ManifestCache) (dirOrFile : String)
    (throwOnMissing : Bool) :
    Except String ManifestLoad × ManifestCache × Nat :=
  match cache.lookup dirOrFile with
  | some v => (.ok v, cache, 0)
  | none =>
    match loadPackageJsonInner fs dirOrFile throwOnMissing with
    | .ok v => (.ok v, (dirOrFile, v) :: cache, 1)
    | .error e => (.error e, cache, 1)

/-! ## Workspace Root Locator (`findWorkspaceRoot`, `src/lib/deps.ts`) -/

/-- The `workspaces` field of a manifest: either an array of patterns, or
an object carrying an optional `packages` array
(`Array.isArray(manifest.workspaces) ? manifest.workspaces
: manifest.workspaces?.packages`). -/
inductive WorkspacesField where
  | arr (patterns : List String)
  | obj (packages : Option (List String))
deriving Repr, DecidableEq

/-- The slice of a package manifest that `findWorkspaceRoot` inspects. -/
structure WsManifest where
  workspaces : Option WorkspacesField
deriving Repr, DecidableEq

/-- Normalisation of the `workspaces` field as performed at the top of the
loop body of `findWorkspaceRoot`; `none` covers both "no manifest at this
directory" and "manifest without workspace patterns", which the source
treats identically (modulo logging). -/
def wsPatterns : Option WsManifest → Option (List String)
  | none => none
  | some m =>
    match m.workspaces with
    | some (.arr patterns) => some patterns
    | some (.obj packages) => packages
    | none => none

/-- Environment of the workspace walk: the manifest (if any) at each
directory, and the `micromatch([relativePath], workspaces, {bash: true})
.length > 0` membership test, kept abstract. -/
structure WsEnv where
  fs : List String → Option WsManifest
  mmatch : String → List String → Bool

/-- `relative(currentDirectory, initialAsPath)` for the directories the
walk visits: `current` is always an ancestor (a `take`-slice) of
`initial`, so the relative path is the remaining segments joined by
`/` (empty when `current = initial`). -/
def relPathString (current initial : List String) : String :=
  String.intercalate "/" (initial.drop current.length)

/-- The `do … while (currentDirectory !== previousDirectory)` loop of
`findWorkspaceRoot`, one recursive step per directory.  Returns the chosen
root together with the list of directories examined, in order.  The body
runs before the loop condition is tested, so the filesystem root `[]`
(where `dirname` no longer changes the directory) is itself examined
before the walk gives up and falls back to `initial`. -/
def findWorkspaceRootGo (env : WsEnv) (initial : List String) :
    List String → List String × List (List String)
  | current =>
    match wsPatterns (env.fs current) with
    | some patterns =>
      if relPathString current initial = "" ∨
          env.mmatch (relPathString current initial) patterns then
        (current, [current])
      else
        (initial, [current])
    | none =>
      if h : current = [] then
        (initial, [current])
      else
        let r := findWorkspaceRootGo env initial current.dropLast
        (r.1, current :: r.2)
  termination_by current => current.length
  decreasing_by
    have hlt : current.dropLast.length < current.length := by
      simp only [List.length_dropLast]
      have : 0 < current.length := List.length_pos.mpr h
      omega
    exact hlt

/-- `findWorkspaceRoot(initial)`: start the upward walk at `initial`
itself. -/
def findWorkspaceRoot (env : WsEnv) (initial : List String) : List String :=
  (findWorkspaceRootGo env initial initial).1

/-! ## Dependency Closure Tracer (`traceFiles`)

`traceFiles` delegates the reachability analysis to `nodeFileTrace` (an
external static-analysis engine) and applies the closure policy to its
result: the returned set is `fileList ∪ esmFileList` minus the resolved
initial entry points, where the entry points are the files whose trace
reason is not ignored and has type `'initial'`.  The engine's output
(`fileList`, `esmFileList`, `reasons`) is modelled as explicit inputs. -/

/-- One entry of the `reasons` map produced by the trace: the reason kind
(`'initial'`, `'dependency'`, `'resolve'`, …) and the `ignored` flag. -/
structure TraceReason where
  type : String
  ignored : Bool
deriving Repr, DecidableEq

/-- The post-processing of `traceFiles` on the engine's result:

```
const resolvedEntryPoints = Array.from(reasons.entries())
  .filter(([, reason]) => !reason.ignored)
  .filter(([, reason]) => reason.type === 'initial')
  .filter(([, reason]) => reason.type !== 'resolve')
  .map(([file]) => file);
return { files: new Set([...fileList, ...esmFileList]
  .filter((file) => !resolvedEntryPoints.includes(file))) };
``` -/
def traceFilesResult (fileList esmFileList : List String)
    (reasons : List (String × TraceReason)) : List String :=
  let resolvedEntryPoints :=
    ((((reasons.filter (fun p => !p.2.ignored)).filter
        (fun p => p.2.type == "initial")).filter
        (fun p => !(p.2.type == "resolve"))).map Prod.fst)
  (fileList ++ esmFileList).filter
    (fun file => !resolvedEntryPoints.contains file)

/-! ## Archive Assembler (`archiveFiles`, `src/lib/archive.ts`)

The `extras` loop of `archiveFiles` classifies each entry and emits
archive writer calls.  The filesystem predicates (`access`, `lstat`), the
symlink-target computation and the glob expansion are external
collaborators modelled as an environment; each loop iteration is a pure
function from one entry to the list of emitted actions, or an error when
the glob expansion rejects. -/

/-- Classification of an existing path by `lstat`: directory, regular
file, symbolic link, or anything else. -/
inductive ExtraKind where
  | dir
  | file
  | symlink
  | other
deriving Repr, DecidableEq

/-- External collaborators of the extras loop. -/
structure ArchiveEnv where
  /-- `access(absolutePath, F_OK)` succeeded. -/
  pathExists : String → Bool
  /-- `lstat` classification of an existing path. -/
  kind : String → ExtraKind
  /-- `relative(dirname(absolutePath), await realpath(absolutePath))`. -/
  symlinkTarget : String → String
  /-- `glob(path, {cwd: base, absolute: true})`: matching absolute paths,
  or the error passed to the glob callback. -/
  globExpand : String → Except String (List String)
  /-- `relative(fileURLToPath(workspaceRoot), f)` for a glob match. -/
  relToWorkspace : String → String

/-- `path.isAbsolute` for the simplified string paths of this model. -/
def isAbsolutePath (entry : String) : Bool :=
  strStartsWith entry "/"

/-- `maybeMakeAbsolute(entry, baseDir)` (`src/lib/utils.ts`): keep
absolute entries, otherwise resolve against the base directory
(`resolve(baseDir, entry)`, modelled for already-normalised inputs). -/
def maybeMakeAbsolute (entry baseDir : String) : String :=
  if isAbsolutePath entry then entry
  else baseDir ++ "/" ++ entry

/-- The calls the extras loop makes against the archive writer and the
logger. -/
inductive ArchiveAction where
  /-- `archive.directory(absolutePath, path)`. -/
  | addDir (src dest : String)
  /-- `archive.file(src, {name})`. -/
  | addFile (src dest : String)
  /-- `archive.symlink(absolutePath, symlinkTarget)`. -/
  | addSymlink (src target : String)
  /-- `logger.warn('Ignored %s. Not a dir or file', absolutePath)`. -/
  | warnNotFile (abs : String)
  /-- `logger.warn('Ignored %s. doesnt exist', absolutePath)`. -/
  | warnMissing (abs : String)
deriving Repr, DecidableEq

/-- One iteration of the `for await (const path of extras)` loop of
`archiveFiles`: existing entries are classified and archived by kind;
non-existing entries that contain a `*` are expanded as a glob (whose
matches are archived relative to the workspace root); entries that
neither exist nor look like a pattern produce only a warning. -/
def processExtra (env : ArchiveEnv) (base : String) (path : String) :
    Except String (List ArchiveAction) :=
  let absolutePath := maybeMakeAbsolute path base
  if env.pathExists absolutePath then
    match env.kind absolutePath with
    | .dir => .ok [.addDir absolutePath path]
    | .file => .ok [.addFile absolutePath path]
    | .symlink => .ok [.addSymlink absolutePath (env.symlinkTarget absolutePath)]
    | .other => .ok [.warnNotFile absolutePath]
  else if looksGlobbish path then
    match env.globExpand path with
    | .ok globFiles =>
      .ok (globFiles.map (fun f => .addFile f (env.relToWorkspace f)))
    | .error e => .error e
  else
    .ok [.warnMissing absolutePath]

/-- The whole extras loop, sequentially: the first rejected glob
expansion aborts the loop (the promise rejects); otherwise all emitted
actions are concatenated in order. -/
def archiveExtras (env : ArchiveEnv) (base : String) :
    List String → Except String (List ArchiveAction)
  | [] => .ok []
  | path :: rest =>
    match processExtra env base path with
    | .error e => .error e
    | .ok acts =>
      match archiveExtras env base rest with
      | .error e => .error e
      | .ok acc => .ok (acts ++ acc)

/-! ## Module Root Resolver (`resolveModuleRoot`, `src/lib/utils.ts`)

`resolveModuleRoot(name, base, workspaceRoot, from?)` first resolves the
module's entry point with the host resolver (`require.resolve` over a
computed search-path list), then — unless the resolution yielded the bare
name, which marks a runtime built-in — walks upward from the entry point's
directory with `findUp` looking for a directory literally named after the
last segment of the module name that contains a `package.json`.  The host
resolver and the `findUp` walk are external collaborators. -/

structure ResolverEnv where
  /-- `require.resolve(name, {paths})`: the resolved entry-point path, or
  `none` when the resolver throws `MODULE_NOT_FOUND`. -/
  resolveEntry : String → Option String
  /-- The `findUp` walk from `dirname(resolvedModuleEntryPoint)` searching
  for a directory named `packageRhs` containing a `package.json`; `none`
  when the walk exhausts all ancestors. -/
  findUpDir : String → Option String

/-- Outcome of `resolveModuleRoot`: either the built-in sentinel (a
`node:` URL) or the package root directory. -/
inductive ModuleRootResult where
  /-- `new URL('node:' + name)`. -/
  | builtin (name : String)
  /-- `pathToFileURL(pathToModuleRoot + '/')`. -/
  | rootDir (path : String)
deriving Repr, DecidableEq

/-- `resolveModuleRoot`, returning the result together with the number of
`findUp` filesystem walks performed after the initial entry-point
resolution (`0` on the built-in path, `1` otherwise). -/
def resolveModuleRoot (env : ResolverEnv) (name : String) :
    Except String (ModuleRootResult × Nat) :=
  match env.resolveEntry name with
  | none => .error ("MODULE_NOT_FOUND: Cannot find module " ++ name)
  | some resolvedModuleEntryPoint =>
    -- native module
    if resolvedModuleEntryPoint = name then
      .ok (.builtin name, 0)
    else
      let packageRhs := lastSegment name
      if packageRhs = "" then
        .error ("No package RHS for " ++ name)
      else
        match env.findUpDir resolvedModuleEntryPoint with
        | some pathToModuleRoot => .ok (.rootDir (pathToModuleRoot ++ "/"), 1)
        | none => .error ("Unable to resolve manifest for " ++ name)

/-! ## Recursive Manifest-Declared File Expander
(`getDependencyPathsFromModule`, `src/lib/utils.ts`)

The traversal resolves the module root, consults the caller's
`shouldDescend` visited-set check (inlined here from `src/lib/bundle.ts`,
where the visited set `modulePaths` is checked and updated inside the
callback), emits `includeCallback` calls for the module's files, and
recurses serially over the manifest-declared dependencies.

Resolution of a module root is abstracted by an oracle classifying the
outcome exactly along the branches of the source: built-in sentinel
(`node:` protocol), a root directory, a `MODULE_NOT_FOUND`-style failure
(matched by `err.code == 'MODULE_NOT_FOUND' || /cannot find module/i`),
or any other error.  The Lean function carries an extra `fuel` argument,
an upper bound on the number of module roots that may still be newly
visited; the `noFuel` result is an artefact of the embedding and is proved
unreachable whenever `fuel` exceeds the number of unvisited roots. -/

/-- Classification of one `resolveModuleRoot` call as observed by
`getDependencyPathsFromModule`. -/
inductive ResolveOutcome where
  /-- Resolution returned the built-in sentinel (`node:` URL). -/
  | builtin (name : String)
  /-- Resolution returned the package root directory `path` (a file URL
  ending in `/`). -/
  | root (path : String)
  /-- Resolution rejected with a module-not-found condition. -/
  | errNotFound (msg : String)
  /-- Resolution rejected with any other error. -/
  | errOther (msg : String)
deriving Repr, DecidableEq

/-- The manifest fields that the expander reads. -/
structure PkgManifest where
  files : Option (List String)
  main : Option String
  dependencies : List String
deriving Repr, DecidableEq

/-- Environment of the traversal: the resolution oracle — applied to the
module name, the base location and `parents[parents.length - 1]` — the
manifest at each module root, and a finite universe `roots` of module
root locations that resolution can produce. -/
structure DepEnv where
  resolve : String → String → Option String → ResolveOutcome
  manifests : String → Option PkgManifest
  roots : List String

/-- Well-formedness of the environment: every root directory produced by
the resolution oracle lies in the finite universe `roots`. -/
def DepEnv.WF (env : DepEnv) : Prop :=
  ∀ name base fr r, env.resolve name base fr = .root r → r ∈ env.roots

/-- Observable effects of the traversal: `includeCallback` invocations and
`logger.warn` messages. -/
inductive TraceEvent where
  /-- `includeCallback(path, name)`. -/
  | included (path : String) (name : String)
  /-- `logger.warn(err.message)` for a swallowed resolution failure. -/
  | warned (msg : String)
deriving Repr, DecidableEq

/-- Mutable state threaded through the traversal: the caller's visited
set `modulePaths` (from the `shouldDescend` callback in
`src/lib/bundle.ts`), kept as a list in insertion order, and the
append-only event log. -/
structure TraceState where
  visited : List String
  events : List TraceEvent
deriving Repr, DecidableEq

/-- Result of the traversal: normal completion, a thrown error
(propagating exception), or fuel exhaustion (embedding artefact).  All
carry the state at the point of completion, since callback side effects
performed before a throw are retained. -/
inductive TraceResult where
  | ok (st : TraceState)
  | fatal (msg : String) (st : TraceState)
  | noFuel (st : TraceState)
deriving Repr, DecidableEq

/-- The state carried by a traversal result. -/
def TraceResult.state : TraceResult → TraceState
  | .ok st => st
  | .fatal _ st => st
  | .noFuel st => st

/-- Worker for `dedupeArray`, carrying the set of elements already seen. -/
def dedupeArrayGo (seen : List String) : List String → List String
  | [] => []
  | a :: rest =>
    if seen.contains a then dedupeArrayGo seen rest
    else a :: dedupeArrayGo (seen ++ [a]) rest

/-- `dedupeArray(arr) = [...new Set(arr)]`: keep the first occurrence of
each element, in order. -/
def dedupeArray (arr : List String) : List String := dedupeArrayGo [] arr

/-- The allow-list of module-name patterns for which a swallowed
`MODULE_NOT_FOUND` is not even logged: `@types*` (DefinitelyTyped),
`type-*` (type-fest etc.), `babel-runtime*`. -/
def quietNotFound (name : String) : Bool :=
  strStartsWith name "@types" || strStartsWith name "type-" ||
    strStartsWith name "babel-runtime"

/-- `new URL(rel, base)` for a base URL ending in `/` and a relative
path: string concatenation in this model. -/
def urlJoin (base rel : String) : String := base ++ rel

/-- The `includeCallback` invocations performed for one module root once
its manifest `pkgJson` is loaded (`src/lib/utils.ts`):

```
includeCallback(new URL('package.json', moduleRoot), name);
dedupeArray(pkgJson.files || []).forEach((glob) =>
  includeCallback(new URL(glob, moduleRoot), name));
if (pkgJson.main) includeCallback(new URL(pkgJson.main, moduleRoot), name);
if (!pkgJson.files) includeCallback(moduleRoot, name);
``` -/
def moduleIncludes (moduleRoot name : String) (pkgJson : PkgManifest) :
    List TraceEvent :=
  [TraceEvent.included (urlJoin moduleRoot "package.json") name]
    ++ (dedupeArray (pkgJson.files.getD [])).map
        (fun glob => TraceEvent.included (urlJoin moduleRoot glob) name)
    ++ (match pkgJson.main with
        | some m => [TraceEvent.included (urlJoin moduleRoot m) name]
        | none => [])
    ++ (match pkgJson.files with
        | some _ => []
        | none => [TraceEvent.included moduleRoot name])

/-- Serial processing of a dependency list (`serialPromiseMapAccum`): one
module's traversal completes before the next begins; a thrown error (or
fuel exhaustion) propagates and skips the remaining siblings. -/
def stepDeps (step : String → TraceState → TraceResult) :
    List String → TraceState → TraceResult
  | [], st => .ok st
  | d :: rest, st =>
    match step d st with
    | .ok st' => stepDeps step rest st'
    | other => other

/-- `getDependencyPathsFromModule(name, base, workspaceRoot,
descendCallback, includeCallback, parents)` with the visited-set
`shouldDescend`/`includeCallback` pair of `src/lib/bundle.ts` inlined into
the state.  `fuel` bounds the number of module roots that may still be
newly visited (see module docstring). -/
def getDependencyPathsFromModule (env : DepEnv) :
    Nat → String → String → List String → TraceState → TraceResult
  | 0, _, _, _, st => .noFuel st
  | fuel + 1, name, base, parents, st =>
    match env.resolve name base parents.getLast? with
    | .errNotFound msg =>
      -- swallowed: the module may not even be require'd at runtime
      if quietNotFound name then .ok st
      else .ok { st with events := st.events ++ [.warned msg] }
    | .errOther msg => .fatal msg st
    | .builtin _ =>
      -- native module, skip
      .ok st
    | .root moduleRoot =>
      -- shouldDescend: `!modulePaths.has(modulePath)`, adding on descent
      if st.visited.contains moduleRoot then .ok st
      else
        let st1 : TraceState := { st with visited := st.visited ++ [moduleRoot] }
        match env.manifests moduleRoot with
        | none => .fatal ("Unable to locate manifest for " ++ name) st1
        | some pkgJson =>
          let st2 : TraceState :=
            { st1 with events := st1.events ++ moduleIncludes moduleRoot name pkgJson }
          -- at leaf node
          if pkgJson.dependencies.isEmpty then .ok st2
          else
            stepDeps
              (fun pkgDep st' =>
                getDependencyPathsFromModule env fuel pkgDep moduleRoot
                  (parents ++ [name]) st')
              pkgJson.dependencies st2

/-- Whether a traversal result is the fuel-exhaustion artefact. -/
def TraceResult.isNoFuel : TraceResult → Bool
  | .noFuel _ => true
  | _ => false

/-- Number of module roots of the environment's universe not yet in the
visited set; the traversal's termination measure. -/
def unvisitedCount (env : DepEnv) (visited : List String) : Nat :=
  (env.roots.filter (fun r => !visited.contains r)).length

/-- The traversal only ever appends to the visited set and the event
log. -/
def StateExtends (st st' : TraceState) : Prop :=
  (∃ tv, st'.visited = st.visited ++ tv) ∧ (∃ te, st'.events = st.events ++ te)

/-- A concrete environment realising the spec's circular-dependency
scenario: `circular-pkg` depends on `circular-pkg-b`, which depends back
on `circular-pkg`. -/
def cyclicEnv : DepEnv where
  resolve := fun n _ _ =>
    if n = "circular-pkg" then .root "/ws/node_modules/circular-pkg/"
    else if n = "circular-pkg-b" then .root "/ws/node_modules/circular-pkg-b/"
    else .errNotFound ("Cannot find module " ++ n)
  manifests := fun r =>
    if r = "/ws/node_modules/circular-pkg/" then
      some { files := some ["dist"], main := some "dist/index.js",
             dependencies := ["circular-pkg-b"] }
    else if r = "/ws/node_modules/circular-pkg-b/" then
      some { files := none, main := none, dependencies := ["circular-pkg"] }
    else none
  roots := ["/ws/node_modules/circular-pkg/", "/ws/node_modules/circular-pkg-b/"]

/-! ## Theorems: Manifest Reader -/

/-- C9: For every location, repeated calls to `loadPackageJson` with the
exact same input location string return the same memoized result and
perform the underlying filesystem read at most once; only the first call
for a given location touches the filesystem.  (Stated for calls that
complete with a result; `p-memoize` removes rejected promises from the
cache.) -/
theorem loadPackageJson_memoized (fs : FsEnv) (cache : ManifestCache)
    (loc : String) (throwOnMissing : Bool) (v : ManifestLoad)
    (cache' : ManifestCache) (n : Nat)
    (h : loadPackageJson fs cache loc throwOnMissing = (.ok v, cache', n)) :
    loadPackageJson fs cache' loc throwOnMissing = (.ok v, cache', 0) ∧ n ≤ 1 := by
  cases hl : cache.lookup loc with
  | some w =>
    simp only [loadPackageJson, hl, Prod.mk.injEq, Except.ok.injEq] at h
    obtain ⟨h1, h2, h3⟩ := h
    subst h1
    subst h2
    refine ⟨by simp [loadPackageJson, hl], by omega⟩
  | none =>
    cases hi : loadPackageJsonInner fs loc throwOnMissing with
    | ok u =>
      simp only [loadPackageJson, hl, hi, Prod.mk.injEq, Except.ok.injEq] at h
      obtain ⟨h1, h2, h3⟩ := h
      subst h1
      subst h2
      refine ⟨by simp [loadPackageJson, List.lookup], by omega⟩
    | error e =>
      simp only [loadPackageJson, hl, hi, Prod.mk.injEq] at h
      exact absurd h.1 (by simp)

/-- C9 witness: a concrete first call (cache miss, one filesystem read)
followed by a memoized second call. -/
theorem loadPackageJson_memoized_witness :
    loadPackageJson { contents := fun f => if f = "/proj/package.json" then some "{}" else none }
        [("/proj", (some "{}", some "/proj/package.json"))] "/proj" false =
      ((.ok (some "{}", some "/proj/package.json")),
        [("/proj", (some "{}", some "/proj/package.json"))], 0) := by
  have := loadPackageJson_memoized
    { contents := fun f => if f = "/proj/package.json" then some "{}" else none }
    [] "/proj" false (some "{}", some "/proj/package.json")
    [("/proj", (some "{}", some "/proj/package.json"))] 1
    (by simp [loadPackageJson, loadPackageJsonInner, packageJsonPathOf,
      List.lookup, show pathEndsWith "/proj" "package.json" = false from by decide])
  exact this.1

/-- C10: The manifest cache is keyed only on the location argument and not
on the `throwOnMissing` flag: for a location whose manifest is absent, a
first non-throwing call caches the absence value `[null, null]`, and a
subsequent throwing call for the same location returns the cached absence
value with no filesystem read — even though a fresh throwing call would
reject with the ENOENT "manifest not found" condition, as the third
conjunct shows. -/
theorem loadPackageJson_cache_ignores_throwOnMissing (fs : FsEnv)
    (cache : ManifestCache) (loc : String)
    (hmiss : cache.lookup loc = none)
    (hfs : fs.contents (packageJsonPathOf loc) = none) :
    loadPackageJson fs cache loc false =
      (.ok (none, none), (loc, (none, none)) :: cache, 1) ∧
    loadPackageJson fs ((loc, (none, none)) :: cache) loc true =
      (.ok (none, none), (loc, (none, none)) :: cache, 0) ∧
    loadPackageJsonInner fs loc true =
      .error ("ENOENT: no such file or directory " ++ packageJsonPathOf loc) := by
  refine ⟨?_, ?_, ?_⟩
  · unfold loadPackageJson loadPackageJsonInner
    rw [hmiss]
    simp [hfs]
  · unfold loadPackageJson
    simp [List.lookup]
  · unfold loadPackageJsonInner
    simp [hfs]

/-- C10 witness: the cached-absence behaviour at a concrete empty
filesystem. -/
theorem loadPackageJson_cache_ignores_throwOnMissing_witness :
    loadPackageJson { contents := fun _ => none } [] "/proj" false =
      (.ok (none, none), [("/proj", (none, none))], 1) ∧
    loadPackageJson { contents := fun _ => none } [("/proj", (none, none))] "/proj" true =
      (.ok (none, none), [("/proj", (none, none))], 0) ∧
    loadPackageJsonInner { contents := fun _ => none } "/proj" true =
      .error ("ENOENT: no such file or directory " ++ packageJsonPathOf "/proj") :=
  loadPackageJson_cache_ignores_throwOnMissing
    { contents := fun _ => none } [] "/proj" (by decide) (by decide)

/-! ## Theorems: Archive Assembler -/

/-- C8: An `extras` entry that does not exist on disk and contains no
wildcard character is logged with a warning and skipped without aborting:
the entry contributes exactly one warning action and no archive-writer
call, and the rest of the extras are processed exactly as they would have
been on their own. -/
theorem archiveExtras_missing_entry_skipped (env : ArchiveEnv)
    (base path : String) (rest : List String)
    (hmiss : env.pathExists (maybeMakeAbsolute path base) = false)
    (hglob : looksGlobbish path = false) :
    processExtra env base path = .ok [.warnMissing (maybeMakeAbsolute path base)] ∧
    archiveExtras env base (path :: rest) =
      (archiveExtras env base rest).map
        (fun acc => .warnMissing (maybeMakeAbsolute path base) :: acc) := by
  have hp : processExtra env base path =
      .ok [.warnMissing (maybeMakeAbsolute path base)] := by
    simp [processExtra, hmiss, hglob]
  refine ⟨hp, ?_⟩
  rw [archiveExtras, hp]
  cases archiveExtras env base rest <;> simp [Except.map]

/-- C8 witness: a missing `./README.md` entry at a concrete environment is
skipped with a warning while the following entry is still archived. -/
theorem archiveExtras_missing_entry_skipped_witness :
    processExtra
        { pathExists := fun p => p = "/ws/app.js", kind := fun _ => .file,
          symlinkTarget := fun _ => "", globExpand := fun _ => .ok [],
          relToWorkspace := fun f => f }
        "/ws" "README.md" = .ok [.warnMissing "/ws/README.md"] ∧
    archiveExtras
        { pathExists := fun p => p = "/ws/app.js", kind := fun _ => .file,
          symlinkTarget := fun _ => "", globExpand := fun _ => .ok [],
          relToWorkspace := fun f => f }
        "/ws" ["README.md", "app.js"] =
      (archiveExtras
          { pathExists := fun p => p = "/ws/app.js", kind := fun _ => .file,
            symlinkTarget := fun _ => "", globExpand := fun _ => .ok [],
            relToWorkspace := fun f => f }
          "/ws" ["app.js"]).map
        (fun acc => .warnMissing "/ws/README.md" :: acc) :=
  archiveExtras_missing_entry_skipped _ "/ws" "README.md" ["app.js"]
    (by decide) (by decide)

/-! ## Theorems: Workspace Root Locator -/

/-- Unfolding of one walk step at a directory without workspace
patterns (continue upward). -/
theorem findWorkspaceRootGo_skip (env : WsEnv) (initial current : List String)
    (hn : wsPatterns (env.fs current) = none) (hne : current ≠ []) :
    findWorkspaceRootGo env initial current =
      ((findWorkspaceRootGo env initial current.dropLast).1,
        current :: (findWorkspaceRootGo env initial current.dropLast).2) := by
  rw [findWorkspaceRootGo, hn]
  simp [hne]

/-- Unfolding of one walk step at a directory that declares workspace
patterns (the walk ends here, one way or the other). -/
theorem findWorkspaceRootGo_found (env : WsEnv) (initial current : List String)
    (pats : List String) (hp : wsPatterns (env.fs current) = some pats) :
    findWorkspaceRootGo env initial current =
      (if relPathString current initial = "" ∨
          env.mmatch (relPathString current initial) pats = true then
        (current, [current])
      else (initial, [current])) := by
  rw [findWorkspaceRootGo, hp]

/-- Dropping the last segment of an ancestor slice yields the next
shorter ancestor slice. -/
theorem dropLast_take_succ (l : List String) (j : Nat) (h : j + 1 ≤ l.length) :
    (l.take (j + 1)).dropLast = l.take j := by
  rw [List.dropLast_eq_take, List.length_take, List.take_take]
  congr 1
  omega

/-- Walking up through a stretch of directories that declare no workspace
patterns does not change the chosen root. -/
theorem findWorkspaceRootGo_chain (env : WsEnv) (initial : List String)
    (k : Nat) (n : Nat) (hkn : k + n ≤ initial.length)
    (habove : ∀ j, k < j → j ≤ initial.length →
      wsPatterns (env.fs (initial.take j)) = none) :
    (findWorkspaceRootGo env initial (initial.take (k + n))).1 =
      (findWorkspaceRootGo env initial (initial.take k)).1 := by
  induction n with
  | zero => rfl
  | succ n ih =>
    have hle : k + n + 1 ≤ initial.length := by omega
    have hn : wsPatterns (env.fs (initial.take (k + n + 1))) = none :=
      habove (k + n + 1) (by omega) hle
    have hne : initial.take (k + n + 1) ≠ [] := by
      have : (initial.take (k + n + 1)).length = k + n + 1 := by
        rw [List.length_take]
        omega
      intro hcon
      rw [hcon] at this
      simp at this
    rw [show k + (n + 1) = (k + n) + 1 from rfl,
      findWorkspaceRootGo_skip env initial _ hn hne,
      dropLast_take_succ initial (k + n) hle]
    exact ih (by omega)

/-- C4: If `findWorkspaceRoot` encounters (walking upward from the start
location, through directories with no workspace patterns) a manifest that
declares workspace patterns which do not match the non-empty relative
path from that manifest's directory to the start location, it returns the
original start location immediately — regardless of what any directory
further up declares, since `env.fs` is arbitrary above the match point. -/
theorem findWorkspaceRoot_nonmatching_returns_start (env : WsEnv)
    (initial : List String) (k : Nat) (pats : List String)
    (hk : k ≤ initial.length)
    (habove : ∀ j, k < j → j ≤ initial.length →
      wsPatterns (env.fs (initial.take j)) = none)
    (hcur : wsPatterns (env.fs (initial.take k)) = some pats)
    (hrel : relPathString (initial.take k) initial ≠ "")
    (hmatch : env.mmatch (relPathString (initial.take k) initial) pats = false) :
    findWorkspaceRoot env initial = initial := by
  unfold findWorkspaceRoot
  have hchain := findWorkspaceRootGo_chain env initial k (initial.length - k)
    (by omega) habove
  rw [show k + (initial.length - k) = initial.length from by omega,
    List.take_length] at hchain
  rw [hchain, findWorkspaceRootGo_found env initial _ pats hcur, if_neg]
  simp [hrel, hmatch]

/-- C4 witness: a monorepo manifest at `/home` whose `packages/*` patterns
do not match `user/proj`; the walk returns the start location
`/home/user/proj` immediately. -/
theorem findWorkspaceRoot_nonmatching_returns_start_witness :
    findWorkspaceRoot
      { fs := fun d =>
          if d = ["home"] then some ⟨some (.arr ["packages/*"])⟩ else none,
        mmatch := fun _ _ => false }
      ["home", "user", "proj"] = ["home", "user", "proj"] := by
  refine findWorkspaceRoot_nonmatching_returns_start _ _ 1 ["packages/*"]
    (by decide) ?_ (by decide) (by decide) (by decide)
  intro j h1 h2
  have h2' : j ≤ 3 := by simpa using h2
  interval_cases j <;> decide

/-- C7: When no directory on the chain from the start location up to the
filesystem root declares workspace patterns, the walk terminates at the
root (the examined directories are exactly the ancestor chain, ending
with the root `[]`, where `dirname` no longer changes the directory) and
`findWorkspaceRoot` returns the original start location as a fallback. -/
theorem findWorkspaceRoot_no_workspace_returns_start (env : WsEnv)
    (initial : List String)
    (hnone : ∀ j, j ≤ initial.length →
      wsPatterns (env.fs (initial.take j)) = none) :
    findWorkspaceRoot env initial = initial ∧
    (findWorkspaceRootGo env initial initial).2 =
      (List.range (initial.length + 1)).reverse.map (fun i => initial.take i) := by
  have key : ∀ j, j ≤ initial.length →
      findWorkspaceRootGo env initial (initial.take j) =
        (initial, (List.range (j + 1)).reverse.map (fun i => initial.take i)) := by
    intro j
    induction j with
    | zero =>
      intro _
      have h0 : wsPatterns (env.fs []) = none := by
        simpa using hnone 0 (by omega)
      rw [show initial.take 0 = [] from rfl, findWorkspaceRootGo, h0]
      rw [show List.range 1 = [0] from rfl]
      simp
    | succ j ih =>
      intro hle
      have hn : wsPatterns (env.fs (initial.take (j + 1))) = none :=
        hnone (j + 1) hle
      have hne : initial.take (j + 1) ≠ [] := by
        have : (initial.take (j + 1)).length = j + 1 := by
          rw [List.length_take]
          omega
        intro hcon
        rw [hcon] at this
        simp at this
      rw [findWorkspaceRootGo_skip env initial _ hn hne,
        dropLast_take_succ initial j hle, ih (by omega)]
      rw [List.range_succ (j + 1)]
      simp
  have hfull := key initial.length (by omega)
  rw [List.take_length] at hfull
  constructor
  · unfold findWorkspaceRoot
    rw [hfull]
  · rw [hfull]

/-- C7 witness: an empty filesystem; the walk from `/a/b` examines
`/a/b`, `/a` and the root, then falls back to `/a/b`. -/
theorem findWorkspaceRoot_no_workspace_returns_start_witness :
    findWorkspaceRoot { fs := fun _ => none, mmatch := fun _ _ => false }
        ["a", "b"] = ["a", "b"] ∧
    (findWorkspaceRootGo { fs := fun _ => none, mmatch := fun _ _ => false }
        ["a", "b"] ["a", "b"]).2 =
      (List.range (["a", "b"].length + 1)).reverse.map
        (fun i => ["a", "b"].take i) :=
  findWorkspaceRoot_no_workspace_returns_start _ ["a", "b"]
    (fun _ _ => rfl)

/-! ## Theorems: Dependency Closure Tracer -/

/-- C2: Under the external engine's guarantee that ignored files do not
appear in its traced file lists, the set returned by `traceFiles` contains
exactly the traced files whose recorded reason is not of the initial
entry-point kind: every transitively reachable traced file appears, and
every file whose trace reason is `'initial'` — the original entry points —
is filtered out. -/
theorem traceFiles_excludes_entry_points (fileList esmFileList : List String)
    (reasons : List (String × TraceReason)) (f : String)
    (hIgn : ∀ p, p ∈ reasons → p.2.ignored = true →
      p.1 ∉ fileList ++ esmFileList) :
    f ∈ traceFilesResult fileList esmFileList reasons ↔
      (f ∈ fileList ++ esmFileList ∧
        ∀ r, (f, r) ∈ reasons → r.type ≠ "initial") := by
  unfold traceFilesResult
  simp only [List.mem_filter, Bool.not_eq_true', List.elem_eq_mem,
    decide_eq_false_iff_not, List.mem_map, List.mem_filter, not_exists,
    Prod.exists, beq_iff_eq, Bool.not_eq_true, bne_iff_ne]
  constructor
  · rintro ⟨hf, hnot⟩
    refine ⟨hf, ?_⟩
    intro r hr htype
    have hign : r.ignored = false := by
      by_contra hcon
      exact hIgn (f, r) hr (by simpa using hcon) hf
    exact hnot f r ⟨⟨⟨⟨hr, hign⟩, htype⟩, by simp [htype]⟩, rfl⟩
  · rintro ⟨hf, hno⟩
    refine ⟨hf, ?_⟩
    intro g r h
    obtain ⟨⟨⟨⟨hr, _⟩, htype⟩, _⟩, hgf⟩ := h
    subst hgf
    exact hno r hr htype

/-- C2 witness: a concrete trace where the entry point `base/e.js` is
excluded and the reached file `base/u.js` is kept. -/
theorem traceFiles_excludes_entry_points_witness :
    ("base/e.js" ∈ traceFilesResult ["base/e.js", "base/u.js"] []
        [("base/e.js", ⟨"initial", false⟩), ("base/u.js", ⟨"dependency", false⟩)] ↔
      ("base/e.js" ∈ ["base/e.js", "base/u.js"] ++ ([] : List String) ∧
        ∀ r, ("base/e.js", r) ∈
            [("base/e.js", TraceReason.mk "initial" false),
              ("base/u.js", TraceReason.mk "dependency" false)] →
          r.type ≠ "initial")) ∧
    "base/u.js" ∈ traceFilesResult ["base/e.js", "base/u.js"] []
      [("base/e.js", ⟨"initial", false⟩), ("base/u.js", ⟨"dependency", false⟩)] ∧
    "base/e.js" ∉ traceFilesResult ["base/e.js", "base/u.js"] []
      [("base/e.js", ⟨"initial", false⟩), ("base/u.js", ⟨"dependency", false⟩)] := by
  refine ⟨traceFiles_excludes_entry_points _ _ _ _ ?_, by decide, by decide⟩
  intro p hp hign
  fin_cases hp <;> simp_all

/-! ## Theorems: Recursive Manifest-Declared File Expander

Supporting lemmas: the traversal state only grows, preserves
distinctness of the visited set, and cannot exhaust its fuel when the
fuel exceeds the number of unvisited module roots. -/

/-- Reflexivity of state extension. -/
theorem stateExtends_rfl (st : TraceState) : StateExtends st st :=
  ⟨⟨[], by simp⟩, ⟨[], by simp⟩⟩

/-- Transitivity of state extension. -/
theorem stateExtends_trans {a b c : TraceState} (h1 : StateExtends a b)
    (h2 : StateExtends b c) : StateExtends a c := by
  obtain ⟨⟨tv1, hv1⟩, ⟨te1, he1⟩⟩ := h1
  obtain ⟨⟨tv2, hv2⟩, ⟨te2, he2⟩⟩ := h2
  exact ⟨⟨tv1 ++ tv2, by rw [hv2, hv1, List.append_assoc]⟩,
    ⟨te1 ++ te2, by rw [he2, he1, List.append_assoc]⟩⟩

/-- Events already emitted survive any further traversal. -/
theorem stateExtends_events_mem {st st' : TraceState} (h : StateExtends st st')
    {ev : TraceEvent} (hev : ev ∈ st.events) : ev ∈ st'.events := by
  obtain ⟨_, ⟨te, he⟩⟩ := h
  rw [he]
  exact List.mem_append_left te hev

/-- Filtering with a stronger predicate yields no more elements. -/
theorem filter_length_le_of_imp (l : List String) (p q : String → Bool)
    (h : ∀ a, q a = true → p a = true) :
    (l.filter q).length ≤ (l.filter p).length := by
  induction l with
  | nil => simp
  | cons a t ih =>
    simp only [List.filter_cons]
    by_cases hq : q a = true
    · rw [if_pos hq, if_pos (h a hq)]
      simp only [List.length_cons]
      omega
    · rw [if_neg hq]
      cases hp : p a
      · rw [if_neg (by simp [hp])]
        exact ih
      · rw [if_pos (by simp [hp])]
        simp only [List.length_cons]
        omega

/-- Filtering with a strictly stronger predicate (witnessed by an element
of the list) yields strictly fewer elements. -/
theorem filter_length_lt_of_witness (l : List String) (p q : String → Bool)
    (h : ∀ a, q a = true → p a = true) (r : String) (hr : r ∈ l)
    (hpr : p r = true) (hqr : q r = false) :
    (l.filter q).length < (l.filter p).length := by
  induction l with
  | nil => simp at hr
  | cons a t ih =>
    simp only [List.filter_cons]
    rcases List.mem_cons.mp hr with rfl | hrt
    · rw [if_neg (by simp [hqr]), if_pos hpr]
      simp only [List.length_cons]
      have := filter_length_le_of_imp t p q h
      omega
    · by_cases hq : q a = true
      · rw [if_pos hq, if_pos (h a hq)]
        simp only [List.length_cons]
        have := ih hrt
        omega
      · rw [if_neg hq]
        cases hp : p a
        · rw [if_neg (by simp [hp])]
          exact ih hrt
        · rw [if_pos (by simp [hp])]
          simp only [List.length_cons]
          have := ih hrt
          omega

/-- Membership characterisation of `List.contains` on strings. -/
theorem contains_eq_true_iff (l : List String) (a : String) :
    l.contains a = true ↔ a ∈ l := by
  simp [List.elem_iff]

/-- Non-membership characterisation of `List.contains` on strings. -/
theorem contains_eq_false_iff (l : List String) (a : String) :
    l.contains a = false ↔ a ∉ l := by
  constructor
  · intro h hmem
    rw [(contains_eq_true_iff l a).mpr hmem] at h
    cases h
  · intro h
    cases hb : l.contains a
    · rfl
    · exact absurd ((contains_eq_true_iff l a).mp hb) h

/-- Extending the visited set cannot increase the number of unvisited
roots. -/
theorem unvisitedCount_le_of_append (env : DepEnv) (visited tv : List String) :
    unvisitedCount env (visited ++ tv) ≤ unvisitedCount env visited := by
  apply filter_length_le_of_imp
  intro a ha
  rw [Bool.not_eq_true'] at ha
  rw [Bool.not_eq_true']
  rw [contains_eq_false_iff] at ha
  rw [contains_eq_false_iff]
  intro hmem
  exact ha (List.mem_append_left tv hmem)

/-- Visiting a fresh root from the universe strictly decreases the number
of unvisited roots. -/
theorem unvisitedCount_lt_of_visit (env : DepEnv) (visited : List String)
    (r : String) (hr : r ∈ env.roots) (hnv : visited.contains r = false) :
    unvisitedCount env (visited ++ [r]) < unvisitedCount env visited := by
  refine filter_length_lt_of_witness env.roots _ _ ?himp r hr ?hpr ?hqr
  case himp =>
    intro a ha
    rw [Bool.not_eq_true'] at ha
    rw [Bool.not_eq_true']
    rw [contains_eq_false_iff] at ha
    rw [contains_eq_false_iff]
    intro hmem
    exact ha (List.mem_append_left [r] hmem)
  case hpr =>
    rw [Bool.not_eq_true']
    exact hnv
  case hqr =>
    rw [Bool.not_eq_false']
    rw [contains_eq_true_iff]
    exact List.mem_append_right visited (by simp)

/-- Unvisited-count comparison transported along a state extension. -/
theorem unvisitedCount_le_of_extends (env : DepEnv) {st st' : TraceState}
    (h : StateExtends st st') :
    unvisitedCount env st'.visited ≤ unvisitedCount env st.visited := by
  obtain ⟨⟨tv, hv⟩, _⟩ := h
  rw [hv]
  exact unvisitedCount_le_of_append env st.visited tv

/-- Serial dependency processing only extends the state, provided each
step does. -/
theorem stepDeps_extend (step : String → TraceState → TraceResult)
    (H : ∀ d st, StateExtends st ((step d st).state)) :
    ∀ (deps : List String) (st : TraceState),
      StateExtends st ((stepDeps step deps st).state) := by
  intro deps
  induction deps with
  | nil =>
    intro st
    exact stateExtends_rfl st
  | cons d rest ih =>
    intro st
    have hd := H d st
    cases hstep : step d st with
    | ok st' =>
      rw [hstep] at hd
      rw [stepDeps, hstep]
      exact stateExtends_trans hd (ih st')
    | fatal msg st' =>
      rw [hstep] at hd
      rw [stepDeps, hstep]
      exact hd
    | noFuel st' =>
      rw [hstep] at hd
      rw [stepDeps, hstep]
      exact hd

/-- Serial dependency processing preserves distinctness of the visited
set, provided each step does. -/
theorem stepDeps_nodup (step : String → TraceState → TraceResult)
    (H : ∀ d st, st.visited.Nodup → ((step d st).state).visited.Nodup) :
    ∀ (deps : List String) (st : TraceState), st.visited.Nodup →
      ((stepDeps step deps st).state).visited.Nodup := by
  intro deps
  induction deps with
  | nil =>
    intro st hnd
    exact hnd
  | cons d rest ih =>
    intro st hnd
    have hd := H d st hnd
    cases hstep : step d st with
    | ok st' =>
      rw [hstep] at hd
      rw [stepDeps, hstep]
      exact ih st' hd
    | fatal msg st' =>
      rw [hstep] at hd
      rw [stepDeps, hstep]
      exact hd
    | noFuel st' =>
      rw [hstep] at hd
      rw [stepDeps, hstep]
      exact hd

/-- Serial dependency processing never exhausts fuel when no step can,
provided each step only extends the state. -/
theorem stepDeps_isNoFuel (env : DepEnv) (B : Nat)
    (step : String → TraceState → TraceResult)
    (Hext : ∀ d st, StateExtends st ((step d st).state))
    (Hn : ∀ d st, unvisitedCount env st.visited < B →
      (step d st).isNoFuel = false) :
    ∀ (deps : List String) (st : TraceState),
      unvisitedCount env st.visited < B →
      (stepDeps step deps st).isNoFuel = false := by
  intro deps
  induction deps with
  | nil =>
    intro st _
    rfl
  | cons d rest ih =>
    intro st hB
    have hext := Hext d st
    have hn := Hn d st hB
    cases hstep : step d st with
    | ok st' =>
      rw [hstep] at hext
      simp only [TraceResult.state] at hext
      rw [stepDeps, hstep]
      refine ih st' ?_
      have := unvisitedCount_le_of_extends env hext
      omega
    | fatal msg st' =>
      rw [stepDeps, hstep]
      rfl
    | noFuel st' =>
      rw [hstep] at hn
      exact absurd hn (by simp [TraceResult.isNoFuel])

/-- The traversal only ever appends to the visited set and the event
log. -/
theorem getDependencyPathsFromModule_extend (env : DepEnv) :
    ∀ (fuel : Nat) (name base : String) (parents : List String)
      (st : TraceState),
      StateExtends st
        ((getDependencyPathsFromModule env fuel name base parents st).state) := by
  intro fuel
  induction fuel with
  | zero =>
    intro name base parents st
    exact stateExtends_rfl st
  | succ fuel ih =>
    intro name base parents st
    cases hres : env.resolve name base parents.getLast? with
    | errNotFound msg =>
      by_cases hq : quietNotFound name = true
      · simp only [getDependencyPathsFromModule, hres, if_pos hq,
          TraceResult.state]
        exact stateExtends_rfl st
      · simp only [getDependencyPathsFromModule, hres, if_neg hq,
          TraceResult.state]
        exact ⟨⟨[], by simp⟩, ⟨[.warned msg], rfl⟩⟩
    | errOther msg =>
      simp only [getDependencyPathsFromModule, hres, TraceResult.state]
      exact stateExtends_rfl st
    | builtin bn =>
      simp only [getDependencyPathsFromModule, hres, TraceResult.state]
      exact stateExtends_rfl st
    | root r =>
      by_cases hvis : st.visited.contains r = true
      · simp only [getDependencyPathsFromModule, hres, if_pos hvis,
          TraceResult.state]
        exact stateExtends_rfl st
      · cases hman : env.manifests r with
        | none =>
          simp only [getDependencyPathsFromModule, hres, if_neg hvis, hman,
            TraceResult.state]
          exact ⟨⟨[r], rfl⟩, ⟨[], by simp⟩⟩
        | some pkgJson =>
          by_cases hdeps : pkgJson.dependencies.isEmpty = true
          · simp only [getDependencyPathsFromModule, hres, if_neg hvis, hman,
              if_pos hdeps, TraceResult.state]
            exact ⟨⟨[r], rfl⟩, ⟨moduleIncludes r name pkgJson, rfl⟩⟩
          · simp only [getDependencyPathsFromModule, hres, if_neg hvis, hman,
              if_neg hdeps]
            refine stateExtends_trans
              (b := { visited := st.visited ++ [r],
                      events := st.events ++ moduleIncludes r name pkgJson })
              ⟨⟨[r], rfl⟩, ⟨moduleIncludes r name pkgJson, rfl⟩⟩ ?_
            exact stepDeps_extend _
              (fun d st' => ih d r (parents ++ [name]) st')
              pkgJson.dependencies _

/-- The traversal preserves distinctness of the visited set: a module
root is added only when it is not yet present. -/
theorem getDependencyPathsFromModule_nodup (env : DepEnv) :
    ∀ (fuel : Nat) (name base : String) (parents : List String)
      (st : TraceState), st.visited.Nodup →
      List.Nodup
        ((getDependencyPathsFromModule env fuel name base parents st).state).visited := by
  intro fuel
  induction fuel with
  | zero =>
    intro name base parents st hnd
    exact hnd
  | succ fuel ih =>
    intro name base parents st hnd
    cases hres : env.resolve name base parents.getLast? with
    | errNotFound msg =>
      by_cases hq : quietNotFound name = true
      · simpa only [getDependencyPathsFromModule, hres, if_pos hq,
          TraceResult.state] using hnd
      · simpa only [getDependencyPathsFromModule, hres, if_neg hq,
          TraceResult.state] using hnd
    | errOther msg =>
      simpa only [getDependencyPathsFromModule, hres, TraceResult.state]
        using hnd
    | builtin bn =>
      simpa only [getDependencyPathsFromModule, hres, TraceResult.state]
        using hnd
    | root r =>
      by_cases hvis : st.visited.contains r = true
      · simpa only [getDependencyPathsFromModule, hres, if_pos hvis,
          TraceResult.state] using hnd
      · have hnotmem : r ∉ st.visited :=
          (contains_eq_false_iff _ _).mp (by simpa using hvis)
        have hnd1 : (st.visited ++ [r]).Nodup := by
          rw [List.nodup_append]
          exact ⟨hnd, List.nodup_singleton r, by simpa using hnotmem⟩
        cases hman : env.manifests r with
        | none =>
          simpa only [getDependencyPathsFromModule, hres, if_neg hvis, hman,
            TraceResult.state] using hnd1
        | some pkgJson =>
          by_cases hdeps : pkgJson.dependencies.isEmpty = true
          · simpa only [getDependencyPathsFromModule, hres, if_neg hvis, hman,
              if_pos hdeps, TraceResult.state] using hnd1
          · simp only [getDependencyPathsFromModule, hres, if_neg hvis, hman,
              if_neg hdeps]
            exact stepDeps_nodup _
              (fun d st' => ih d r (parents ++ [name]) st')
              pkgJson.dependencies _ hnd1

/-- With fuel exceeding the number of unvisited module roots, the
traversal never exhausts its fuel: the embedding artefact `noFuel` is
unreachable, i.e. the recursion terminates.  This holds for arbitrary —
in particular circular — dependency graphs. -/
theorem getDependencyPathsFromModule_sufficient_fuel (env : DepEnv)
    (hwf : env.WF) :
    ∀ (fuel : Nat) (name base : String) (parents : List String)
      (st : TraceState), unvisitedCount env st.visited < fuel →
      (getDependencyPathsFromModule env fuel name base parents st).isNoFuel
        = false := by
  intro fuel
  induction fuel with
  | zero =>
    intro name base parents st hlt
    omega
  | succ fuel ih =>
    intro name base parents st hlt
    cases hres : env.resolve name base parents.getLast? with
    | errNotFound msg =>
      by_cases hq : quietNotFound name = true
      · simp only [getDependencyPathsFromModule, hres, if_pos hq,
          TraceResult.isNoFuel]
      · simp only [getDependencyPathsFromModule, hres, if_neg hq,
          TraceResult.isNoFuel]
    | errOther msg =>
      simp only [getDependencyPathsFromModule, hres, TraceResult.isNoFuel]
    | builtin bn =>
      simp only [getDependencyPathsFromModule, hres, TraceResult.isNoFuel]
    | root r =>
      by_cases hvis : st.visited.contains r = true
      · simp only [getDependencyPathsFromModule, hres, if_pos hvis,
          TraceResult.isNoFuel]
      · have hr : r ∈ env.roots := hwf name base parents.getLast? r hres
        have hless : unvisitedCount env (st.visited ++ [r]) <
            unvisitedCount env st.visited :=
          unvisitedCount_lt_of_visit env st.visited r hr (by simpa using hvis)
        cases hman : env.manifests r with
        | none =>
          simp only [getDependencyPathsFromModule, hres, if_neg hvis, hman,
            TraceResult.isNoFuel]
        | some pkgJson =>
          by_cases hdeps : pkgJson.dependencies.isEmpty = true
          · simp only [getDependencyPathsFromModule, hres, if_neg hvis, hman,
              if_pos hdeps, TraceResult.isNoFuel]
          · simp only [getDependencyPathsFromModule, hres, if_neg hvis, hman,
              if_neg hdeps]
            refine stepDeps_isNoFuel env fuel _
              (fun d st' =>
                getDependencyPathsFromModule_extend env fuel d r
                  (parents ++ [name]) st')
              (fun d st' hlt' => ih d r (parents ++ [name]) st' hlt')
              pkgJson.dependencies _ ?_
            show unvisitedCount env (st.visited ++ [r]) < fuel
            omega

/-- Events of the inclusion block survive the rest of the processing of a
freshly descended module root. -/
theorem getDeps_descend_events (env : DepEnv) (fuel : Nat)
    (name base : String) (parents : List String) (st : TraceState)
    (r : String) (pkgJson : PkgManifest)
    (hres : env.resolve name base parents.getLast? = .root r)
    (hvis : st.visited.contains r = false)
    (hman : env.manifests r = some pkgJson)
    (ev : TraceEvent) (hev : ev ∈ moduleIncludes r name pkgJson) :
    ev ∈ ((getDependencyPathsFromModule env (fuel + 1) name base parents
      st).state).events := by
  have hvisneg : ¬ st.visited.contains r = true := by
    intro hc
    rw [hvis] at hc
    cases hc
  by_cases hdeps : pkgJson.dependencies.isEmpty = true
  · simp only [getDependencyPathsFromModule, hres, if_neg hvisneg, hman,
      if_pos hdeps, TraceResult.state]
    exact List.mem_append_right _ hev
  · simp only [getDependencyPathsFromModule, hres, if_neg hvisneg, hman,
      if_neg hdeps]
    refine stateExtends_events_mem
      (stepDeps_extend _
        (fun d st' =>
          getDependencyPathsFromModule_extend env fuel d r
            (parents ++ [name]) st')
        pkgJson.dependencies _) ?_
    exact List.mem_append_right _ hev

/-- The cyclic witness environment is well-formed: resolution only
produces roots from its universe. -/
theorem cyclicEnv_wf : cyclicEnv.WF := by
  intro n b fr r h
  have h' : (if n = "circular-pkg" then
        ResolveOutcome.root "/ws/node_modules/circular-pkg/"
      else if n = "circular-pkg-b" then
        ResolveOutcome.root "/ws/node_modules/circular-pkg-b/"
      else ResolveOutcome.errNotFound ("Cannot find module " ++ n)) =
      ResolveOutcome.root r := h
  by_cases h1 : n = "circular-pkg"
  · rw [if_pos h1] at h'
    injection h' with hr
    subst hr
    decide
  · rw [if_neg h1] at h'
    by_cases h2 : n = "circular-pkg-b"
    · rw [if_pos h2] at h'
      injection h' with hr
      subst hr
      decide
    · rw [if_neg h2] at h'
      exact absurd h' (by simp)

/-- C1: On any dependency graph — circular graphs included —
`getDependencyPathsFromModule` terminates (with fuel exceeding the number
of module roots, the fuel-exhaustion artefact is unreachable), the
caller's visited set stays duplicate-free, so no module root is processed
for file-inclusion and dependency-expansion more than once; and a module
root reached a second time — under any name/specifier whose resolution
yields it — leaves the state untouched: no `onInclude` events and no
recursion. -/
theorem getDependencyPathsFromModule_cycle_safe (env : DepEnv)
    (hwf : env.WF) (name base : String) (parents : List String)
    (st : TraceState) (hnd : st.visited.Nodup) :
    (getDependencyPathsFromModule env (env.roots.length + 1) name base
      parents st).isNoFuel = false ∧
    List.Nodup ((getDependencyPathsFromModule env (env.roots.length + 1)
      name base parents st).state).visited ∧
    (∀ (fuel : Nat) (r : String),
      env.resolve name base parents.getLast? = .root r →
      st.visited.contains r = true →
      getDependencyPathsFromModule env (fuel + 1) name base parents st =
        .ok st) := by
  refine ⟨?_, ?_, ?_⟩
  · apply getDependencyPathsFromModule_sufficient_fuel env hwf
    have hle : unvisitedCount env st.visited ≤ env.roots.length :=
      List.length_filter_le _ _
    omega
  · exact getDependencyPathsFromModule_nodup env _ name base parents st hnd
  · intro fuel r hres hcont
    simp only [getDependencyPathsFromModule, hres, if_pos hcont]

/-- C1 witness: the traversal of the concrete cycle
`circular-pkg → circular-pkg-b → circular-pkg` terminates without fuel
exhaustion and visits each module root exactly once. -/
theorem getDependencyPathsFromModule_cycle_safe_witness :
    (getDependencyPathsFromModule cyclicEnv (cyclicEnv.roots.length + 1)
      "circular-pkg" "/ws/" [] ⟨[], []⟩).isNoFuel = false ∧
    List.Nodup ((getDependencyPathsFromModule cyclicEnv
      (cyclicEnv.roots.length + 1) "circular-pkg" "/ws/" []
      ⟨[], []⟩).state).visited :=
  ⟨(getDependencyPathsFromModule_cycle_safe cyclicEnv cyclicEnv_wf
      "circular-pkg" "/ws/" [] ⟨[], []⟩ List.nodup_nil).1,
    (getDependencyPathsFromModule_cycle_safe cyclicEnv cyclicEnv_wf
      "circular-pkg" "/ws/" [] ⟨[], []⟩ List.nodup_nil).2.1⟩

/-- C3: A module name whose entry-point resolution yields the bare name
unchanged is a runtime built-in: `resolveModuleRoot` returns the built-in
sentinel with zero further filesystem walks, and
`getDependencyPathsFromModule`, on receiving the sentinel outcome, stops
immediately with the state untouched — no `onInclude` events, no visited
mark, no recursion. -/
theorem builtin_short_circuit (envR : ResolverEnv) (envD : DepEnv)
    (nameR : String) (fuel : Nat) (name base : String)
    (parents : List String) (st : TraceState) (bn : String)
    (hR : envR.resolveEntry nameR = some nameR)
    (hD : envD.resolve name base parents.getLast? = .builtin bn) :
    resolveModuleRoot envR nameR = .ok (.builtin nameR, 0) ∧
    getDependencyPathsFromModule envD (fuel + 1) name base parents st =
      .ok st := by
  constructor
  · simp [resolveModuleRoot, hR]
  · simp only [getDependencyPathsFromModule, hD]

/-- C3 witness: resolving the built-in `fs` at a resolver that returns
names unchanged, and a traversal step observing a built-in outcome. -/
theorem builtin_short_circuit_witness :
    resolveModuleRoot
      { resolveEntry := fun n => some n, findUpDir := fun _ => none } "fs" =
      .ok (.builtin "fs", 0) ∧
    getDependencyPathsFromModule
      { resolve := fun _ _ _ => .builtin "path",
        manifests := fun _ => none, roots := [] }
      1 "path" "/ws/" [] ⟨[], []⟩ = .ok ⟨[], []⟩ :=
  builtin_short_circuit
    { resolveEntry := fun n => some n, findUpDir := fun _ => none }
    { resolve := fun _ _ _ => .builtin "path",
      manifests := fun _ => none, roots := [] }
    "fs" 0 "path" "/ws/" [] ⟨[], []⟩ "path" rfl rfl

/-- C5: When a freshly descended module's manifest declares a `files`
field, the expander nevertheless additionally invokes `onInclude` for the
module's own `package.json` manifest file and for its declared `main`
entry file. -/
theorem files_field_still_includes_manifest_and_main (env : DepEnv)
    (fuel : Nat) (name base : String) (parents : List String)
    (st : TraceState) (r : String) (pkgJson : PkgManifest)
    (globs : List String) (m : String)
    (hres : env.resolve name base parents.getLast? = .root r)
    (hvis : st.visited.contains r = false)
    (hman : env.manifests r = some pkgJson)
    (hfiles : pkgJson.files = some globs)
    (hmain : pkgJson.main = some m) :
    TraceEvent.included (urlJoin r "package.json") name ∈
      ((getDependencyPathsFromModule env (fuel + 1) name base parents
        st).state).events ∧
    TraceEvent.included (urlJoin r m) name ∈
      ((getDependencyPathsFromModule env (fuel + 1) name base parents
        st).state).events := by
  constructor
  · exact getDeps_descend_events env fuel name base parents st r pkgJson
      hres hvis hman _ (by simp [moduleIncludes])
  · exact getDeps_descend_events env fuel name base parents st r pkgJson
      hres hvis hman _ (by simp [moduleIncludes, hmain])

/-- C5 witness: `circular-pkg` declares `files: ["dist"]`, yet its
`package.json` and its `main` (`dist/index.js`) are both included. -/
theorem files_field_still_includes_manifest_and_main_witness :
    TraceEvent.included
        (urlJoin "/ws/node_modules/circular-pkg/" "package.json")
        "circular-pkg" ∈
      ((getDependencyPathsFromModule cyclicEnv 1 "circular-pkg" "/ws/" []
        ⟨[], []⟩).state).events ∧
    TraceEvent.included
        (urlJoin "/ws/node_modules/circular-pkg/" "dist/index.js")
        "circular-pkg" ∈
      ((getDependencyPathsFromModule cyclicEnv 1 "circular-pkg" "/ws/" []
        ⟨[], []⟩).state).events :=
  files_field_still_includes_manifest_and_main cyclicEnv 0 "circular-pkg"
    "/ws/" [] ⟨[], []⟩ "/ws/node_modules/circular-pkg/"
    { files := some ["dist"], main := some "dist/index.js",
      dependencies := ["circular-pkg-b"] }
    ["dist"] "dist/index.js" (by decide) (by decide) (by decide)
    (by decide) (by decide)

/-- C6 counterexample: `left-pad` matches none of the allow-list patterns
(`@types*`, `type-*`, `babel-runtime*`), yet when its resolution fails
with module-not-found the traversal completes normally (`.ok`, with only
a logged warning) instead of propagating a fatal error, contradicting the
claim that the not-found condition is fatal for names outside the
allow-list. -/
theorem notFound_nonfatal_counterexample :
    getDependencyPathsFromModule cyclicEnv 1 "left-pad" "/ws/" []
      ⟨[], []⟩ =
      .ok ⟨[], [.warned "Cannot find module left-pad"]⟩ := by
  decide

/-- C6 amended: when module resolution fails with a module-not-found
condition, `getDependencyPathsFromModule` always degrades to a non-fatal
skip, for every module name; the allow-list only controls logging —
allow-listed names are skipped silently, every other name produces a
warning.  Resolution failures other than not-found do propagate as
fatal. -/
theorem notFound_always_nonfatal (env : DepEnv) (fuel : Nat)
    (name base : String) (parents : List String) (st : TraceState)
    (msg : String)
    (hres : env.resolve name base parents.getLast? = .errNotFound msg) :
    getDependencyPathsFromModule env (fuel + 1) name base parents st =
      (if quietNotFound name then .ok st
       else .ok { st with events := st.events ++ [.warned msg] }) ∧
    (∀ (env2 : DepEnv) (fuel2 : Nat) (name2 base2 : String)
      (parents2 : List String) (st2 : TraceState) (msg2 : String),
      env2.resolve name2 base2 parents2.getLast? = .errOther msg2 →
      getDependencyPathsFromModule env2 (fuel2 + 1) name2 base2 parents2
        st2 = .fatal msg2 st2) := by
  constructor
  · by_cases hq : quietNotFound name = true
    · simp only [getDependencyPathsFromModule, hres, if_pos hq]
    · simp only [getDependencyPathsFromModule, hres, if_neg hq]
  · intro env2 fuel2 name2 base2 parents2 st2 msg2 hres2
    simp only [getDependencyPathsFromModule, hres2]

/-- C6 amended witness: the allow-listed `@types/node` is skipped
silently on module-not-found. -/
theorem notFound_always_nonfatal_witness :
    getDependencyPathsFromModule cyclicEnv 1 "@types/node" "/ws/" []
      ⟨[], []⟩ =
      (if quietNotFound "@types/node" then .ok (⟨[], []⟩ : TraceState)
       else .ok ⟨[], [.warned "Cannot find module @types/node"]⟩) :=
  (notFound_always_nonfatal cyclicEnv 0 "@types/node" "/ws/" [] ⟨[], []⟩
    "Cannot find module @types/node" (by decide)).1

end Biruda
